import Mathlib

/-!
Verification of the container-pool and secure file-management core of the
AI-Challenge backend (`backend/app/docker/container_manager.py` and
`backend/app/docker/file_manager.py`).

The Python code is shallowly embedded: dictionaries become association
lists with unique keys (`d[k] = v` replaces the binding in place for an
existing key and appends for a fresh key, matching CPython insertion-order
semantics; deletion removes every binding of the key, which coincides with
`dict.pop` on the unique-key domain), `time.time()` becomes an explicit
integer parameter, and external effects (the Docker runtime, the real
host filesystem, SHA-256) become explicit parameters of the embedded
functions.  Python `Optional[str]` truthiness is embedded exactly: both
`None` and the empty string are falsy.
-/

namespace AIChallenge

/-! ### Association-list model of Python dictionaries -/

/-- Python `d.get(k)` / `d[k]` lookup on an insertion-ordered dictionary. -/
def alookup {α : Type} (k : String) : List (String × α) → Option α
  | [] => none
  | (k₁, v) :: t => if k₁ = k then some v else alookup k t

/-- Python `d[k] = v`: replace the binding in place when the key is present,
append a fresh binding otherwise. -/
def aupsert {α : Type} (k : String) (v : α) : List (String × α) → List (String × α)
  | [] => [(k, v)]
  | (k₁, v₁) :: t => if k₁ = k then (k, v) :: t else (k₁, v₁) :: aupsert k v t

/-- Python `d.pop(k, None)` on the unique-key domain: drop every binding of `k`. -/
def aerase {α : Type} (k : String) (l : List (String × α)) : List (String × α) :=
  l.filter (fun p => p.1 != k)

/-- Python `s.add(x)` on a set modelled as a duplicate-free list. -/
def setAdd (x : String) (s : List String) : List String :=
  if s.contains x then s else s ++ [x]

/-! ### Path validation (`SecurePathValidator`, file_manager.py lines 110-157) -/

/-- Error raised by `SecurePathValidator.validate_path` (`PathValidationError`). -/
inductive PathErr where
  | pathRejected
deriving DecidableEq, Repr

/-- Split a character list into path components at slash characters
(auxiliary accumulator form). -/
def splitPathAux : List Char → List Char → List (List Char)
  | [], acc => [acc.reverse]
  | '/' :: t, acc => acc.reverse :: splitPathAux t []
  | c :: t, acc => splitPathAux t (c :: acc)

/-- Split a character list into path components at slash characters. -/
def splitPath (cs : List Char) : List (List Char) :=
  splitPathAux cs []

/-- Lexical normalisation step of `pathlib.Path.resolve`: empty and `.`
components are dropped, `..` removes the last accumulated component
(a no-op at the root), and ordinary components are appended. -/
def resolveComps : List (List Char) → List (List Char) → List (List Char)
  | base, [] => base
  | base, c :: t =>
    if c.isEmpty || c == ['.'] then resolveComps base t
    else if c == ['.', '.'] then resolveComps base.dropLast t
    else resolveComps (base ++ [c]) t

/-- Render resolved components back to an absolute path string. -/
def joinPath : List (List Char) → List Char
  | [] => ['/']
  | c :: t => (c :: t).foldl (fun acc comp => acc ++ '/' :: comp) []

/-- Whether a raw path string is absolute (starts with a slash). -/
def isAbs : List Char → Bool
  | '/' :: _ => true
  | _ => false

/-- `Path(path).resolve()`: relative paths are interpreted against the
current working directory `cwd` (given as a component list), then the
component sequence is normalised lexically. -/
def resolvePath (cwd : List (List Char)) (path : String) : List Char :=
  let cs := path.data
  joinPath (resolveComps (if isAbs cs then [] else cwd) (splitPath cs))

/-- Boolean string-prefix test on character lists (`str.startswith`). -/
def isPrefixList : List Char → List Char → Bool
  | [], _ => true
  | _ :: _, [] => false
  | a :: as, b :: bs => a == b && isPrefixList as bs

/-- Boolean substring test on character lists (Python `in` on strings). -/
def hasSubstr (pat : List Char) : List Char → Bool
  | [] => isPrefixList pat []
  | c :: t => isPrefixList pat (c :: t) || hasSubstr pat t

/-- The fixed deny-list of `SecurePathValidator` (file_manager.py lines 114-116). -/
def defaultBlockedPaths : List String :=
  ["/etc", "/usr", "/bin", "/sbin", "/boot", "/dev", "/proc", "/sys"]

/-- `SecurePathValidator.validate_path` (file_manager.py lines 118-137):
resolve the path, reject it when the resolved string starts with a blocked
entry or still contains the substring `..`, otherwise return it. -/
def validate_path (blocked : List String) (cwd : List (List Char)) (path : String) :
    Except PathErr (List Char) :=
  let r := resolvePath cwd path
  if blocked.any (fun b => isPrefixList b.data r) then .error .pathRejected
  else if hasSubstr ['.', '.'] r then .error .pathRejected
  else .ok r

/-- Directory containment as stated by the spec: the resolved path equals a
deny-list entry or lives strictly below it. -/
def liesUnder (b : String) (r : List Char) : Bool :=
  r == b.data || isPrefixList (b.data ++ ['/']) r

/-! ### Container pool (`ContainerPool`, container_manager.py lines 27-284) -/

/-- `ContainerStatus` enumeration (container_manager.py lines 27-35). -/
inductive ContainerStatus where
  | created
  | running
  | paused
  | restarting
  | removing
  | exited
  | dead
deriving DecidableEq, Repr

/-- `ContainerWrapper` (container_manager.py lines 137-156): the opaque
Docker handle and its `ContainerConfig` snapshot carry no pool-relevant
state and are elided; `id` stands for `container.id`. -/
structure ContainerWrapper where
  id : String
  created_at : Int
  last_used : Int
  status : ContainerStatus
  in_use : Bool := false
  language : Option String := none
deriving DecidableEq, Repr

/-- `ContainerWrapper.update_last_used` with the current time explicit. -/
def update_last_used (w : ContainerWrapper) (now : Int) : ContainerWrapper :=
  { w with last_used := now }

/-- `ContainerWrapper.mark_in_use`: sets the flag and refreshes
`last_used` only when marking busy. -/
def mark_in_use (w : ContainerWrapper) (now : Int) (inUse : Bool) : ContainerWrapper :=
  let w₁ := { w with in_use := inUse }
  if inUse then update_last_used w₁ now else w₁

/-- Python truthiness of the `Optional[str]` language tag: `None` and the
empty string are falsy. -/
def langTruthy : Option String → Bool
  | none => false
  | some s => s != ""

/-- `ContainerPool` (container_manager.py lines 179-284): primary map
`_pool` and secondary index `_language_pools`. -/
structure ContainerPool where
  max_pool_size : Nat
  idle_timeout : Int
  pool : List (String × ContainerWrapper) := []
  language_pools : List (String × List String) := []
deriving DecidableEq, Repr

/-- A fresh, empty pool as built by `ContainerPool.__init__`. -/
def mkContainerPool (max_pool_size : Nat) (idle_timeout : Int) : ContainerPool :=
  { max_pool_size := max_pool_size, idle_timeout := idle_timeout }

/-- `ContainerPool.get_container_count` (lines 190-195): a truthy language
argument counts the language index entry, otherwise the whole pool. -/
def get_container_count (p : ContainerPool) (language : Option String) : Nat :=
  if langTruthy language then
    ((alookup (language.getD "") p.language_pools).getD []).length
  else p.pool.length

/-- `ContainerPool.add_container` (lines 197-208). -/
def add_container (p : ContainerPool) (w : ContainerWrapper) : ContainerPool :=
  let cid := w.id
  let pool₁ := aupsert cid w p.pool
  let lps :=
    if langTruthy w.language then
      let l := w.language.getD ""
      aupsert l (setAdd cid ((alookup l p.language_pools).getD [])) p.language_pools
    else p.language_pools
  { p with pool := pool₁, language_pools := lps }

/-- `ContainerPool.remove_container` (lines 210-218). -/
def remove_container (p : ContainerPool) (cid : String) :
    Option ContainerWrapper × ContainerPool :=
  match alookup cid p.pool with
  | none => (none, p)
  | some w =>
    let lps :=
      if langTruthy w.language then
        match alookup (w.language.getD "") p.language_pools with
        | some s =>
          aupsert (w.language.getD "") (s.filter (fun x => x != cid)) p.language_pools
        | none => p.language_pools
      else p.language_pools
    (some w, { p with pool := aerase cid p.pool, language_pools := lps })

/-- Eligibility test used by `get_available_container` (lines 229-231):
not in use, running, and idle strictly less than the timeout. -/
def eligibleB (idle_timeout now : Int) (w : ContainerWrapper) : Bool :=
  !w.in_use && (w.status == ContainerStatus.running)
    && decide (now - w.last_used < idle_timeout)

/-- First loop of `get_available_container` (lines 226-232): walk the
requested language's id set and return the first whose pool entry is
eligible (missing entries are skipped). -/
def findEligibleInLang (p : ContainerPool) (now : Int) (ids : List String) :
    Option ContainerWrapper :=
  ids.findSome? (fun cid =>
    match alookup cid p.pool with
    | some w => if eligibleB p.idle_timeout now w then some w else none
    | none => none)

/-- Second loop of `get_available_container` (lines 234-239): walk the
whole pool in insertion order and return the first eligible wrapper. -/
def findEligibleAny (p : ContainerPool) (now : Int) : Option ContainerWrapper :=
  p.pool.findSome? (fun kv => if eligibleB p.idle_timeout now kv.2 then some kv.2 else none)

/-- `ContainerPool.get_available_container` (lines 220-241): first scan the
requested language's index, then fall back to scanning the whole pool in
insertion order. -/
def get_available_container (p : ContainerPool) (now : Int) (language : Option String) :
    Option ContainerWrapper :=
  let fromLang : Option ContainerWrapper :=
    if langTruthy language then
      match alookup (language.getD "") p.language_pools with
      | some ids => findEligibleInLang p now ids
      | none => none
    else none
  match fromLang with
  | some w => some w
  | none => findEligibleAny p now

/-- `ContainerPool.cleanup_idle_containers` (lines 243-257): collect every
descriptor that is not in use and idle strictly longer than the timeout,
then remove each collected id. -/
def cleanup_idle_containers (p : ContainerPool) (now : Int) : List String × ContainerPool :=
  let toRemove := (p.pool.filter (fun kv =>
      !kv.2.in_use && decide (now - kv.2.last_used > p.idle_timeout))).map (fun kv => kv.1)
  (toRemove, toRemove.foldl (fun acc cid => (remove_container acc cid).2) p)

/-! ### Container manager (`ContainerManager`, container_manager.py lines 286-628) -/

/-- Errors of the manager layer.  In the source these are
`ContainerManagerError` (pool exhausted, unknown id),
`ContainerExecutionError` and `ContainerTimeoutError`; the constructors
follow the spec's taxonomy names. -/
inductive CMError where
  | poolExhausted
  | notFound
  | executionError
  | timeoutError
deriving DecidableEq, Repr

/-- Outcome of the underlying Docker `exec` call, an external effect
passed in explicitly: normal completion, a runtime failure
(`ContainerError` / generic exception), or a wall-clock timeout. -/
inductive ExecOutcome where
  | ok (exit_code : Int) (stdout stderr : String)
  | executionError
  | timeoutError
deriving DecidableEq, Repr

/-- `ContainerManager.create_and_start_container` (lines 446-492) restricted
to its pool bookkeeping: capacity gate with one `cleanup_idle_containers`
pass, then registration of the freshly started wrapper.  The Docker
create/start calls are external effects assumed to succeed; `newId` is the
runtime-generated container id. -/
def create_and_start_container (p : ContainerPool) (now : Int) (newId : String)
    (language : String) : Except CMError (ContainerPool × String) :=
  let p₁ := if p.pool.length ≥ p.max_pool_size then (cleanup_idle_containers p now).2 else p
  if p₁.pool.length ≥ p.max_pool_size then .error .poolExhausted
  else
    let w : ContainerWrapper :=
      { id := newId, created_at := now, last_used := now,
        status := ContainerStatus.running, in_use := false, language := some language }
    .ok (add_container p₁ w, newId)

/-- `ContainerManager.execute_in_container` (lines 503-528): `NotFound` for
an unknown id; otherwise mark the wrapper in use, run the command (its
outcome is the explicit `runResult` parameter), refresh `last_used` on
success, and unmark in the `finally` block on every exit path. -/
def execute_in_container (p : ContainerPool) (now : Int) (cid : String)
    (runResult : ExecOutcome) :
    Except CMError (Int × String × String) × ContainerPool :=
  match alookup cid p.pool with
  | none => (.error .notFound, p)
  | some w =>
    let w₁ := if !w.in_use then mark_in_use w now true else w
    match runResult with
    | .ok code out err =>
      let w₂ := mark_in_use (update_last_used w₁ now) now false
      (.ok (code, out, err), { p with pool := aupsert cid w₂ p.pool })
    | .executionError =>
      let w₂ := mark_in_use w₁ now false
      (.error .executionError, { p with pool := aupsert cid w₂ p.pool })
    | .timeoutError =>
      let w₂ := mark_in_use w₁ now false
      (.error .timeoutError, { p with pool := aupsert cid w₂ p.pool })

/-! ### Sequences of pool operations (for the pool bookkeeping invariant) -/

/-- One public mutation of `ContainerPool`. -/
inductive PoolOp where
  | add (w : ContainerWrapper)
  | remove (cid : String)

/-- Apply one pool operation. -/
def applyOp (p : ContainerPool) : PoolOp → ContainerPool
  | .add w => add_container p w
  | .remove cid => (remove_container p cid).2

/-- Apply a sequence of pool operations in order. -/
def applyOps (p : ContainerPool) (ops : List PoolOp) : ContainerPool :=
  ops.foldl applyOp p

/-- A sequence is valid when every `add` supplies a container id that is
not currently in the pool (runtime-generated ids are unique). -/
def validOps (p : ContainerPool) : List PoolOp → Bool
  | [] => true
  | op :: t =>
    (match op with
     | .add w => (alookup w.id p.pool).isNone
     | .remove _ => true) && validOps (applyOp p op) t

/-- The language-index entry for `l` (empty when absent). -/
def langIndex (p : ContainerPool) (l : String) : List String :=
  (alookup l p.language_pools).getD []

/-- The ids of the primary-map descriptors whose language is `l`, in
insertion order: the partition of the primary map by language. -/
def poolLangIds (p : ContainerPool) (l : String) : List String :=
  (p.pool.filter (fun kv => kv.2.language == some l)).map (fun kv => kv.1)

/-- Pool bookkeeping invariant: primary-map keys are duplicate-free and
the language index is exactly the partition of the primary map by
(nonempty) language. -/
def PoolInv (p : ContainerPool) : Prop :=
  (p.pool.map (fun kv => kv.1)).Nodup ∧
  ∀ l : String, l ≠ "" → langIndex p l = poolLangIds p l

/-! ### File manager (`FileManager` and helpers, file_manager.py lines 160-497) -/

/-- Errors of the file layer.  In the source the first three are
`FileSecurityError` with distinct messages, the last two are
`FileTransferError`; constructors follow the spec's taxonomy names. -/
inductive FMError where
  | sizeExceeded
  | extensionRejected
  | unsafeFilename
  | capacityExceeded
  | missingFile
deriving DecidableEq, Repr

/-- `FilePermission` enumeration (file_manager.py lines 40-45); `no_perm`
is the Python member `NONE`. -/
inductive FilePermission where
  | read_only
  | read_write
  | execute
  | no_perm
deriving DecidableEq, Repr

/-- `FileTransferConfig` (file_manager.py lines 74-87). -/
structure FileTransferConfig where
  max_file_size : Nat := 10 * 1024 * 1024
  allowed_extensions : List String :=
    [".py", ".js", ".ts", ".java", ".c", ".cpp", ".go", ".rs", ".php", ".rb",
     ".txt", ".md", ".json", ".xml", ".yaml", ".yml"]
  blocked_paths : List String := defaultBlockedPaths
  cleanup_interval : Int := 300
  max_temp_files : Nat := 100

/-- The default configuration (all fields at their defaults). -/
def defaultFileTransferConfig : FileTransferConfig := {}

/-- `FileMetadata` (file_manager.py lines 48-58). -/
structure FileMetadata where
  path : String
  size : Nat
  checksum : String
  created_at : Int
  modified_at : Int
  permission : FilePermission
  is_temporary : Bool := false
  container_id : Option String := none
deriving DecidableEq, Repr

/-- Combined state of `TemporaryFileManager`: the `temp_files` registry
plus the host filesystem it writes to, modelled as a map from path to
byte content (bytes as naturals). -/
structure FMState where
  temp_dir : String
  temp_files : List (String × FileMetadata) := []
  fs : List (String × List Nat) := []
deriving DecidableEq, Repr

/-- `pathlib` name of a path: its last retained component (empty and `.`
components are dropped at parse time). -/
def pathName (cs : List Char) : List Char :=
  (((splitPath cs).filter (fun c => !c.isEmpty && c != ['.'])).getLast?).getD []

/-- Index of the last dot (`str.rfind`), accumulator form. -/
def lastDotIdxAux : List Char → Nat → Option Nat → Option Nat
  | [], _, acc => acc
  | c :: t, i, acc => lastDotIdxAux t (i + 1) (if c = '.' then some i else acc)

/-- Index of the last dot in a name (`str.rfind`). -/
def lastDotIdx (cs : List Char) : Option Nat :=
  lastDotIdxAux cs 0 none

/-- `pathlib.PurePath.suffix`: the final extension including the dot,
empty when the last dot is leading or trailing. -/
def fileSuffix (cs : List Char) : List Char :=
  let name := pathName cs
  match lastDotIdx name with
  | some i => if 0 < i ∧ i + 1 < name.length then name.drop i else []
  | none => []

/-- `pathlib.PurePath.stem`: the name with its final extension removed. -/
def fileStem (cs : List Char) : List Char :=
  let name := pathName cs
  match lastDotIdx name with
  | some i => if 0 < i ∧ i + 1 < name.length then name.take i else name
  | none => name

/-- ASCII lower-casing of a name (`str.lower`). -/
def toLowerL (cs : List Char) : List Char := cs.map Char.toLower

/-- ASCII upper-casing of a name (`str.upper`). -/
def toUpperL (cs : List Char) : List Char := cs.map Char.toUpper

/-- Characters rejected by `is_safe_filename` (file_manager.py line 142). -/
def dangerousChars : List Char := ['<', '>', ':', '"', '|', '?', '*']

/-- Windows reserved device names (file_manager.py lines 147-151). -/
def reservedNames : List String :=
  ["CON", "PRN", "AUX", "NUL",
   "COM1", "COM2", "COM3", "COM4", "COM5", "COM6", "COM7", "COM8", "COM9",
   "LPT1", "LPT2", "LPT3", "LPT4", "LPT5", "LPT6", "LPT7", "LPT8", "LPT9"]

/-- `SecurePathValidator.is_safe_filename` (file_manager.py lines 139-157). -/
def is_safe_filename (filename : String) : Bool :=
  if dangerousChars.any (fun c => filename.data.contains c) then false
  else if (reservedNames.map String.data).contains (toUpperL (fileStem filename.data)) then
    false
  else true

/-- `FileManager.validate_file_content` (file_manager.py lines 395-410):
size check, then extension allow-list check (skipped for an empty
suffix), then filename safety check. -/
def validate_file_content (cfg : FileTransferConfig) (content : List Nat)
    (filename : String) : Except FMError Unit :=
  if content.length > cfg.max_file_size then .error .sizeExceeded
  else
    let file_ext := toLowerL (fileSuffix filename.data)
    if !file_ext.isEmpty && !(cfg.allowed_extensions.map String.data).contains file_ext then
      .error .extensionRejected
    else if !is_safe_filename filename then .error .unsafeFilename
    else .ok ()

/-- `TemporaryFileManager.delete_temp_file` (file_manager.py lines 235-248):
pop the registry entry and unlink the file; idempotent, returning `false`
for an unknown id. -/
def delete_temp_file (st : FMState) (file_id : String) : Bool × FMState :=
  match alookup file_id st.temp_files with
  | none => (false, st)
  | some m =>
    (true, { st with temp_files := aerase file_id st.temp_files,
                     fs := aerase m.path st.fs })

/-- `TemporaryFileManager._cleanup_old_files` (file_manager.py lines
250-262): delete every registry entry older than the cleanup interval. -/
def cleanup_old_files (cfg : FileTransferConfig) (st : FMState) (now : Int) :
    Nat × FMState :=
  let to_remove := (st.temp_files.filter (fun kv =>
      decide (now - kv.2.created_at > cfg.cleanup_interval))).map (fun kv => kv.1)
  (to_remove.length, to_remove.foldl (fun acc fid => (delete_temp_file acc fid).2) st)

/-- `TemporaryFileManager.create_temp_file` (file_manager.py lines
174-220): capacity gate with one reclamation pass, then write the bytes
under the private per-id filename, hash them, and register the metadata.
The collision-resistant uuid4 is the explicit `file_id` parameter. -/
def create_temp_file (cfg : FileTransferConfig) (sha256 : List Nat → String)
    (st : FMState) (now : Int) (content : List Nat) (filename : String)
    (file_id : String) (container_id : Option String) :
    Except FMError (String × FMState) :=
  let st₁ := if st.temp_files.length ≥ cfg.max_temp_files then
      (cleanup_old_files cfg st now).2 else st
  if st₁.temp_files.length ≥ cfg.max_temp_files then .error .capacityExceeded
  else
    let path := st₁.temp_dir ++ "/" ++ file_id ++ "_" ++ filename
    let md : FileMetadata :=
      { path := path, size := content.length, checksum := sha256 content,
        created_at := now, modified_at := now, permission := FilePermission.read_write,
        is_temporary := true, container_id := container_id }
    .ok (file_id, { st₁ with fs := aupsert path content st₁.fs,
                             temp_files := aupsert file_id md st₁.temp_files })

/-- `TemporaryFileManager.get_temp_file_path` (file_manager.py lines 227-233). -/
def get_temp_file_path (st : FMState) (file_id : String) : Option String :=
  (alookup file_id st.temp_files).map (fun m => m.path)

/-- `FileManager.get_file_checksum` (file_manager.py lines 480-487):
re-read the bytes from disk and hash them; error when the file is gone. -/
def get_file_checksum (sha256 : List Nat → String) (st : FMState) (path : String) :
    Except FMError String :=
  match alookup path st.fs with
  | none => .error .missingFile
  | some bytes => .ok (sha256 bytes)

/-- `FileManager.verify_file_integrity` (file_manager.py lines 489-496):
`false` for an unknown id, otherwise recompute the checksum and compare. -/
def verify_file_integrity (sha256 : List Nat → String) (st : FMState)
    (file_id : String) (expected : String) : Except FMError Bool :=
  match get_temp_file_path st file_id with
  | none => .ok false
  | some path =>
    match get_file_checksum sha256 st path with
    | .error e => .error e
    | .ok actual => .ok (actual == expected)

/-- `FileManager.create_secure_temp_file` (file_manager.py lines 412-421):
validate the content, then delegate to the store; validation errors leave
the state untouched (no file is created). -/
def create_secure_temp_file (cfg : FileTransferConfig) (sha256 : List Nat → String)
    (st : FMState) (now : Int) (content : List Nat) (filename : String)
    (file_id : String) (container_id : Option String) :
    Except FMError (String × FMState) :=
  match validate_file_content cfg content filename with
  | .error e => .error e
  | .ok _ => create_temp_file cfg sha256 st now content filename file_id container_id

/-- `FileManager.cleanup_temp_files` on an explicit id list (file_manager.py
lines 447-456). -/
def cleanup_temp_files (st : FMState) (file_ids : List String) : Nat × FMState :=
  file_ids.foldl (fun acc fid =>
    let r := delete_temp_file acc.2 fid
    (if r.1 then acc.1 + 1 else acc.1, r.2)) (0, st)

/-- `FileManager.temporary_file_context` (file_manager.py lines 466-478):
create the secure temp file, run the body on the yielded id, and delete
the file in the `finally` block whether the body returned or raised. -/
def temporary_file_context {ε : Type} (cfg : FileTransferConfig)
    (sha256 : List Nat → String) (st : FMState) (now : Int) (content : List Nat)
    (filename : String) (file_id : String) (container_id : Option String)
    (body : String → FMState → Except ε Unit × FMState) :
    Except (Sum FMError ε) Unit × FMState :=
  match create_secure_temp_file cfg sha256 st now content filename file_id container_id with
  | .error e => (.error (.inl e), st)
  | .ok (fid, st₁) =>
    let r := body fid st₁
    let st₂ := (cleanup_temp_files r.2 [fid]).2
    (match r.1 with
     | .ok u => .ok u
     | .error e => .error (.inr e), st₂)

/-! ### Association-list lemmas -/

theorem alookup_aupsert_self {α : Type} (k : String) (v : α) (l : List (String × α)) :
    alookup k (aupsert k v l) = some v := by
  induction l with
  | nil => simp [aupsert, alookup]
  | cons h t ih =>
    by_cases hk : h.1 = k
    · simp [aupsert, hk, alookup]
    · simp [aupsert, hk, alookup, ih]

theorem alookup_aupsert_ne {α : Type} (k k₁ : String) (v : α) (l : List (String × α))
    (h : k₁ ≠ k) : alookup k₁ (aupsert k v l) = alookup k₁ l := by
  induction l with
  | nil => simp [aupsert, alookup, Ne.symm h]
  | cons hd t ih =>
    obtain ⟨a, b⟩ := hd
    by_cases hk : a = k
    · subst hk
      simp [aupsert, alookup, Ne.symm h]
    · simp [aupsert, hk, alookup, ih]

theorem alookup_aerase_self {α : Type} (k : String) (l : List (String × α)) :
    alookup k (aerase k l) = none := by
  induction l with
  | nil => simp [aerase, alookup]
  | cons h t ih =>
    by_cases hk : h.1 = k
    · simpa [aerase, hk, alookup] using ih
    · simpa [aerase, hk, alookup] using ih

/-- A fresh key is appended at the end, as in a CPython dict. -/
theorem aupsert_fresh {α : Type} (k : String) (v : α) (l : List (String × α))
    (h : alookup k l = none) : aupsert k v l = l ++ [(k, v)] := by
  induction l with
  | nil => simp [aupsert]
  | cons hd t ih =>
    by_cases hk : hd.1 = k
    · simp [alookup, hk] at h
    · simp [alookup, hk] at h
      simp [aupsert, hk, ih h]

theorem alookup_eq_none_iff {α : Type} (k : String) (l : List (String × α)) :
    alookup k l = none ↔ ∀ kv ∈ l, kv.1 ≠ k := by
  induction l with
  | nil => simp [alookup]
  | cons hd t ih =>
    by_cases hk : hd.1 = k
    · simp [alookup, hk]
    · simp [alookup, hk, ih]

theorem alookup_some_mem {α : Type} (k : String) (v : α) (l : List (String × α))
    (h : alookup k l = some v) : (k, v) ∈ l := by
  induction l with
  | nil => simp [alookup] at h
  | cons hd t ih =>
    obtain ⟨a, b⟩ := hd
    by_cases hk : a = k
    · subst hk
      simp [alookup] at h
      subst h
      exact List.mem_cons_self _ _
    · simp [alookup, hk] at h
      exact List.mem_cons_of_mem _ (ih h)

/-- With duplicate-free keys, a member binding is the one `alookup` finds. -/
theorem alookup_of_mem_nodup {α : Type} (k : String) (v : α) (l : List (String × α))
    (hnd : (l.map (fun kv => kv.1)).Nodup) (h : (k, v) ∈ l) : alookup k l = some v := by
  induction l with
  | nil => simp at h
  | cons hd t ih =>
    simp only [List.map_cons, List.nodup_cons] at hnd
    rcases List.mem_cons.mp h with h₁ | h₁
    · simp [← h₁, alookup]
    · have hne : hd.1 ≠ k := by
        intro he
        exact hnd.1 (he ▸ (List.mem_map.mpr ⟨(k, v), h₁, rfl⟩))
      simp [alookup, hne, ih hnd.2 h₁]

/-! ### Path-validator lemmas -/

theorem isPrefixList_refl (xs : List Char) : isPrefixList xs xs = true := by
  induction xs with
  | nil => rfl
  | cons a t ih => simp [isPrefixList, ih]

theorem isPrefixList_of_append (xs ys zs : List Char)
    (h : isPrefixList (xs ++ ys) zs = true) : isPrefixList xs zs = true := by
  induction xs generalizing zs with
  | nil => rfl
  | cons a t ih =>
    cases zs with
    | nil => simp [isPrefixList] at h
    | cons b bs =>
      simp only [List.cons_append, isPrefixList, Bool.and_eq_true] at h ⊢
      exact ⟨h.1, ih bs h.2⟩

theorem validate_path_error_of_blocked (blocked : List String) (cwd : List (List Char))
    (path b : String) (hb : b ∈ blocked)
    (h : isPrefixList b.data (resolvePath cwd path) = true) :
    validate_path blocked cwd path = .error .pathRejected := by
  have hany : blocked.any (fun x => isPrefixList x.data (resolvePath cwd path)) = true :=
    List.any_eq_true.mpr ⟨b, hb, h⟩
  simp [validate_path, hany]

theorem validate_path_error_of_dotdot (blocked : List String) (cwd : List (List Char))
    (path : String) (h : hasSubstr ['.', '.'] (resolvePath cwd path) = true) :
    validate_path blocked cwd path = .error .pathRejected := by
  cases hany : blocked.any (fun x => isPrefixList x.data (resolvePath cwd path)) <;>
    simp [validate_path, hany, h]

theorem validate_path_absCwd (blocked : List String) (cwd : List (List Char))
    (path : String) (h : isAbs path.data = true) :
    validate_path blocked cwd path = validate_path blocked [] path := by
  simp [validate_path, resolvePath, h]

theorem resolve_relative_dd (cwd : List (List Char)) (hb : cwd.dropLast.dropLast = []) :
    resolvePath cwd "../../etc/passwd" = "/etc/passwd".data := by
  show joinPath (resolveComps (if isAbs ("../../etc/passwd".data) then [] else cwd)
      (splitPath ("../../etc/passwd".data))) = "/etc/passwd".data
  have h1 : (if isAbs ("../../etc/passwd".data) then ([] : List (List Char)) else cwd)
      = cwd := rfl
  have h2 : splitPath ("../../etc/passwd".data)
      = [['.', '.'], ['.', '.'], ['e', 't', 'c'], ['p', 'a', 's', 's', 'w', 'd']] := rfl
  have e1 : ∀ (base : List (List Char)) t,
      resolveComps base (['.', '.'] :: t) = resolveComps base.dropLast t := fun _ _ => rfl
  rw [h1, h2, e1, e1, hb]
  rfl

/-- C1: every path whose resolved form lies under a deny-list directory, and
every path whose resolved string still contains `..`, is rejected by
`validate_path` with `PathRejected`; in particular `/etc/passwd`,
`../../etc/passwd` and `/tmp/../../etc/passwd` are rejected while
`/tmp/ok/file.txt` succeeds and returns the absolute resolved path.  The
working directory is assumed to sit at depth at most two, which makes
`../../etc/passwd` resolve to `/etc/passwd` as in the spec's example. -/
theorem validate_path_denylist_c1 (cwd : List (List Char)) (hc : cwd.length ≤ 2) :
    (∀ path b, b ∈ defaultBlockedPaths → liesUnder b (resolvePath cwd path) = true →
        validate_path defaultBlockedPaths cwd path = .error .pathRejected)
    ∧ (∀ path, hasSubstr ['.', '.'] (resolvePath cwd path) = true →
        validate_path defaultBlockedPaths cwd path = .error .pathRejected)
    ∧ validate_path defaultBlockedPaths cwd "/etc/passwd" = .error .pathRejected
    ∧ validate_path defaultBlockedPaths cwd "../../etc/passwd" = .error .pathRejected
    ∧ validate_path defaultBlockedPaths cwd "/tmp/../../etc/passwd" = .error .pathRejected
    ∧ validate_path defaultBlockedPaths cwd "/tmp/ok/file.txt" = .ok "/tmp/ok/file.txt".data
    := by
  have hb : cwd.dropLast.dropLast = [] := by
    rcases cwd with _ | ⟨a, _ | ⟨b, _ | ⟨c, t⟩⟩⟩
    · rfl
    · rfl
    · rfl
    · simp at hc
  refine ⟨?_, ?_, ?_, ?_, ?_, ?_⟩
  · intro path b hbm hl
    simp only [liesUnder, Bool.or_eq_true, beq_iff_eq] at hl
    have hpre : isPrefixList b.data (resolvePath cwd path) = true := by
      rcases hl with h₁ | h₁
      · rw [h₁]
        exact isPrefixList_refl _
      · exact isPrefixList_of_append _ _ _ h₁
    exact validate_path_error_of_blocked _ _ _ b hbm hpre
  · intro path h
    exact validate_path_error_of_dotdot _ _ _ h
  · rw [validate_path_absCwd defaultBlockedPaths cwd "/etc/passwd" rfl]
    rfl
  · refine validate_path_error_of_blocked _ _ _ "/etc" (by decide) ?_
    rw [resolve_relative_dd cwd hb]
    decide
  · rw [validate_path_absCwd defaultBlockedPaths cwd "/tmp/../../etc/passwd" rfl]
    rfl
  · rw [validate_path_absCwd defaultBlockedPaths cwd "/tmp/ok/file.txt" rfl]
    rfl

theorem validate_path_denylist_c1_witness :
    validate_path defaultBlockedPaths [] "../../etc/passwd" = .error .pathRejected
    ∧ validate_path defaultBlockedPaths [] "/tmp/ok/file.txt"
        = .ok "/tmp/ok/file.txt".data :=
  ⟨(validate_path_denylist_c1 [] (by decide)).2.2.2.1,
   (validate_path_denylist_c1 [] (by decide)).2.2.2.2.2⟩

/-- C10: the deny-list check matches by string prefix of the resolved path,
not by directory containment: every path whose resolved string merely
begins with a blocked entry is rejected, including the sibling directories
`/etcetera/file` and `/usr2/file`. -/
theorem validate_path_prefix_c10 :
    (∀ (cwd : List (List Char)) (path b : String), b ∈ defaultBlockedPaths →
        isPrefixList b.data (resolvePath cwd path) = true →
        validate_path defaultBlockedPaths cwd path = .error .pathRejected)
    ∧ (∀ cwd : List (List Char),
        validate_path defaultBlockedPaths cwd "/etcetera/file" = .error .pathRejected)
    ∧ (∀ cwd : List (List Char),
        validate_path defaultBlockedPaths cwd "/usr2/file" = .error .pathRejected) := by
  refine ⟨?_, ?_, ?_⟩
  · intro cwd path b hb h
    exact validate_path_error_of_blocked _ _ _ b hb h
  · intro cwd
    rw [validate_path_absCwd defaultBlockedPaths cwd "/etcetera/file" rfl]
    rfl
  · intro cwd
    rw [validate_path_absCwd defaultBlockedPaths cwd "/usr2/file" rfl]
    rfl

theorem validate_path_prefix_c10_witness :
    validate_path defaultBlockedPaths [] "/etcetera/file" = .error .pathRejected :=
  validate_path_prefix_c10.1 [] "/etcetera/file" "/etc" (by decide) (by decide)

/-! ### Claim C7: execute_in_container releases the in_use flag -/

/-- C7: `execute_in_container` marks the target descriptor in use for the
duration of the command and unmarks it in its `finally` block on every
exit path — normal return, execution error and timeout — so after the
call the descriptor's `in_use` flag is false. -/
theorem execute_unmarks_in_use_c7 (p : ContainerPool) (now : Int) (cid : String)
    (runResult : ExecOutcome) (w : ContainerWrapper)
    (h : alookup cid p.pool = some w) :
    ∃ w₁, alookup cid (execute_in_container p now cid runResult).2.pool = some w₁ ∧
      w₁.in_use = false := by
  unfold execute_in_container
  rw [h]
  have key : ∀ (w₂ : ContainerWrapper) (e : Except CMError (Int × String × String)),
      w₂.in_use = false →
      ∃ w₁, alookup cid
          ((e, { p with pool := aupsert cid w₂ p.pool }) :
            Except CMError (Int × String × String) × ContainerPool).2.pool = some w₁ ∧
        w₁.in_use = false :=
    fun w₂ e hw => ⟨w₂, by simp [alookup_aupsert_self], hw⟩
  cases runResult <;> exact key _ _ rfl

theorem execute_unmarks_in_use_c7_witness :
    ∃ w₁, alookup "c1"
        (execute_in_container
          ⟨10, 300, [("c1", ⟨"c1", 0, 0, ContainerStatus.running, false, some "python"⟩)], []⟩
          5 "c1" ExecOutcome.timeoutError).2.pool = some w₁ ∧
      w₁.in_use = false :=
  execute_unmarks_in_use_c7 _ 5 "c1" ExecOutcome.timeoutError _ rfl

/-! ### Claims C4, C5, C8: temporary-file store -/

theorem alookup_delete_self (s : FMState) (fid : String) :
    alookup fid ((delete_temp_file s fid).2).temp_files = none := by
  unfold delete_temp_file
  cases h : alookup fid s.temp_files
  · simpa using h
  · simp [alookup_aerase_self]

/-- C5: once a `temporary_file_context` scope exits, the store no longer
contains the file created for the scope; the body is arbitrary, covering
both normal completion (`Except.ok`) and a raised exception
(`Except.error`), because the `finally` deletion runs last either way. -/
theorem temp_file_scope_cleanup_c5 {ε : Type} (cfg : FileTransferConfig)
    (sha256 : List Nat → String) (st : FMState) (now : Int) (content : List Nat)
    (filename : String) (file_id : String) (container_id : Option String)
    (st₁ : FMState)
    (h : create_secure_temp_file cfg sha256 st now content filename file_id container_id
        = .ok (file_id, st₁))
    (body : String → FMState → Except ε Unit × FMState) :
    alookup file_id
      (temporary_file_context cfg sha256 st now content filename file_id container_id
        body).2.temp_files = none := by
  unfold temporary_file_context
  rw [h]
  exact alookup_delete_self (body file_id st₁).2 file_id

theorem temp_file_scope_cleanup_c5_witness :
    alookup "f1"
      (temporary_file_context defaultFileTransferConfig (fun _ => "chk")
        ⟨"/tmp/t", [], []⟩ 0 [0, 255] "main.py" "f1" none
        (fun _ s => (Except.error (0 : Nat), s))).2.temp_files = none
    ∧ alookup "f1"
      (temporary_file_context defaultFileTransferConfig (fun _ => "chk")
        ⟨"/tmp/t", [], []⟩ 0 [0, 255] "main.py" "f1" none
        (fun _ s => ((Except.ok () : Except Nat Unit), s))).2.temp_files = none :=
  ⟨temp_file_scope_cleanup_c5 defaultFileTransferConfig (fun _ => "chk")
      ⟨"/tmp/t", [], []⟩ 0 [0, 255] "main.py" "f1" none _ rfl
      (fun _ s => (Except.error (0 : Nat), s)),
   temp_file_scope_cleanup_c5 defaultFileTransferConfig (fun _ => "chk")
      ⟨"/tmp/t", [], []⟩ 0 [0, 255] "main.py" "f1" none _ rfl
      (fun _ s => ((Except.ok () : Except Nat Unit), s))⟩

/-- C4: after a successful `create_secure_temp_file`, integrity
verification against the stored bytes' digest returns true, any other
digest returns false, the bytes read back from the path are identical to
the bytes written (byte-for-byte, so including non-UTF8 content), and
after deletion verification returns false.  The digest function is an
arbitrary parameter standing for `hashlib.sha256(...).hexdigest()`. -/
theorem temp_file_integrity_c4 (cfg : FileTransferConfig) (sha256 : List Nat → String)
    (st : FMState) (now : Int) (content : List Nat) (filename : String)
    (file_id : String) (container_id : Option String) (st₁ : FMState)
    (h : create_secure_temp_file cfg sha256 st now content filename file_id container_id
        = .ok (file_id, st₁)) :
    verify_file_integrity sha256 st₁ file_id (sha256 content) = .ok true
    ∧ (∀ d, d ≠ sha256 content → verify_file_integrity sha256 st₁ file_id d = .ok false)
    ∧ (∃ path, get_temp_file_path st₁ file_id = some path
        ∧ alookup path st₁.fs = some content)
    ∧ verify_file_integrity sha256 (delete_temp_file st₁ file_id).2 file_id
        (sha256 content) = .ok false := by
  unfold create_secure_temp_file at h
  cases hv : validate_file_content cfg content filename with
  | error e => rw [hv] at h; simp at h
  | ok u =>
    rw [hv] at h
    have h₁ : create_temp_file cfg sha256 st now content filename file_id container_id
        = .ok (file_id, st₁) := h
    clear h
    simp only [create_temp_file] at h₁
    set base := (if st.temp_files.length ≥ cfg.max_temp_files
        then (cleanup_old_files cfg st now).2 else st) with hb
    split at h₁
    · simp at h₁
    · rw [Except.ok.injEq, Prod.mk.injEq] at h₁
      obtain ⟨-, hst⟩ := h₁
      subst hst
      refine ⟨?_, ?_, ?_, ?_⟩
      · simp [verify_file_integrity, get_temp_file_path, get_file_checksum,
          alookup_aupsert_self]
      · intro d hd
        simp [verify_file_integrity, get_temp_file_path, get_file_checksum,
          alookup_aupsert_self]
        exact Ne.symm hd
      · simp only [get_temp_file_path, alookup_aupsert_self, Option.map_some']
        exact ⟨_, rfl, alookup_aupsert_self _ _ _⟩
      · simp [delete_temp_file, alookup_aupsert_self, verify_file_integrity,
          get_temp_file_path, alookup_aerase_self]

theorem temp_file_integrity_c4_witness :
    ∃ st₁ : FMState,
      verify_file_integrity (fun _ => "chk") st₁ "f1" "chk" = .ok true
      ∧ verify_file_integrity (fun _ => "chk") st₁ "f1" "other" = .ok false
      ∧ (∃ path, get_temp_file_path st₁ "f1" = some path
          ∧ alookup path st₁.fs = some [0, 255])
      ∧ verify_file_integrity (fun _ => "chk") (delete_temp_file st₁ "f1").2 "f1" "chk"
          = .ok false :=
  let r := temp_file_integrity_c4 defaultFileTransferConfig (fun _ => "chk")
      ⟨"/tmp/t", [], []⟩ 0 [0, 255] "main.py" "f1" none _ rfl
  ⟨_, r.1, r.2.1 "other" (by decide), r.2.2.1, r.2.2.2⟩

/-- C8: a filename with a nonempty extension absent from the configured
allow-list is rejected by `validate_file_content` with
`ExtensionRejected` (given content within the size limit, which is
checked first), and `create_secure_temp_file` therefore fails with the
same error before any file is created — an error leaves the given store
and filesystem untouched, since only the success branch produces a new
state. -/
theorem extension_rejected_c8 (cfg : FileTransferConfig) (sha256 : List Nat → String)
    (st : FMState) (now : Int) (content : List Nat) (filename : String)
    (file_id : String) (container_id : Option String)
    (hsize : content.length ≤ cfg.max_file_size)
    (hext : toLowerL (fileSuffix filename.data) ≠ [])
    (hmem : toLowerL (fileSuffix filename.data) ∉ cfg.allowed_extensions.map String.data) :
    validate_file_content cfg content filename = .error .extensionRejected
    ∧ create_secure_temp_file cfg sha256 st now content filename file_id container_id
        = .error .extensionRejected := by
  have h1 : ¬ content.length > cfg.max_file_size := by omega
  have h2 : (!(toLowerL (fileSuffix filename.data)).isEmpty
      && !(cfg.allowed_extensions.map String.data).contains
            (toLowerL (fileSuffix filename.data))) = true := by
    rw [Bool.and_eq_true]
    constructor
    · simp [hext]
    · simp [List.contains, hmem]
  have hv : validate_file_content cfg content filename = .error .extensionRejected := by
    simp only [validate_file_content]
    rw [if_neg h1, if_pos h2]
  exact ⟨hv, by simp [create_secure_temp_file, hv]⟩

theorem extension_rejected_c8_witness :
    validate_file_content defaultFileTransferConfig [1, 2] "virus.exe"
        = .error .extensionRejected
    ∧ create_secure_temp_file defaultFileTransferConfig (fun _ => "chk")
        ⟨"/tmp/t", [], []⟩ 0 [1, 2] "virus.exe" "f1" none
        = .error .extensionRejected :=
  extension_rejected_c8 defaultFileTransferConfig (fun _ => "chk")
    ⟨"/tmp/t", [], []⟩ 0 [1, 2] "virus.exe" "f1" none
    (by decide) (by decide) (by decide)

/-! ### Claim C2: get_available_container soundness and language preference -/

theorem eligibleB_iff (idle now : Int) (w : ContainerWrapper) :
    eligibleB idle now w = true ↔
      w.in_use = false ∧ w.status = ContainerStatus.running
        ∧ now - w.last_used < idle := by
  simp [eligibleB, and_assoc]

theorem findEligibleInLang_sound (p : ContainerPool) (now : Int) (ids : List String)
    (w : ContainerWrapper) (h : findEligibleInLang p now ids = some w) :
    eligibleB p.idle_timeout now w = true ∧ ∃ cid ∈ ids, alookup cid p.pool = some w := by
  obtain ⟨cid, hmem, hf⟩ := List.exists_of_findSome?_eq_some h
  cases hcw : alookup cid p.pool with
  | none => rw [hcw] at hf; simp at hf
  | some w₁ =>
    rw [hcw] at hf
    have hf₁ : (if eligibleB p.idle_timeout now w₁ = true then some w₁ else none)
        = some w := hf
    by_cases he : eligibleB p.idle_timeout now w₁ = true
    · rw [if_pos he] at hf₁
      obtain rfl : w₁ = w := Option.some.inj hf₁
      exact ⟨he, cid, hmem, hcw⟩
    · rw [if_neg he] at hf₁
      simp at hf₁

theorem findEligibleAny_sound (p : ContainerPool) (now : Int) (w : ContainerWrapper)
    (h : findEligibleAny p now = some w) :
    eligibleB p.idle_timeout now w = true ∧ ∃ kv ∈ p.pool, kv.2 = w := by
  obtain ⟨kv, hmem, hf⟩ := List.exists_of_findSome?_eq_some h
  by_cases he : eligibleB p.idle_timeout now kv.2 = true
  · rw [if_pos he] at hf
    obtain rfl : kv.2 = w := Option.some.inj hf
    exact ⟨he, kv, hmem, rfl⟩
  · rw [if_neg he] at hf
    simp at hf

theorem findEligibleInLang_none (p : ContainerPool) (now : Int) (ids : List String)
    (h : ∀ kv ∈ p.pool, eligibleB p.idle_timeout now kv.2 = false) :
    findEligibleInLang p now ids = none := by
  apply List.findSome?_eq_none_iff.mpr
  intro cid _
  cases hcw : alookup cid p.pool with
  | none => rfl
  | some w₁ =>
    have hw₁ := h (cid, w₁) (alookup_some_mem _ _ _ hcw)
    simp only at hw₁
    simp [hw₁]

theorem findEligibleAny_none (p : ContainerPool) (now : Int)
    (h : ∀ kv ∈ p.pool, eligibleB p.idle_timeout now kv.2 = false) :
    findEligibleAny p now = none := by
  apply List.findSome?_eq_none_iff.mpr
  intro kv hkv
  simp [h kv hkv]

/-- C2: `get_available_container` never returns a descriptor that is in
use, not Running, or idle for at least `idle_timeout`; when no descriptor
in the pool is eligible it returns none; and when the language index
holds an eligible descriptor (under the index-consistency hypothesis that
indexed wrappers carry that language) the returned descriptor's language
matches the argument. -/
theorem get_available_eligibility_c2 (p : ContainerPool) (now : Int)
    (language : Option String) :
    (∀ w, get_available_container p now language = some w →
        w.in_use = false ∧ w.status = ContainerStatus.running
          ∧ now - w.last_used < p.idle_timeout)
    ∧ ((∀ kv ∈ p.pool, eligibleB p.idle_timeout now kv.2 = false) →
        get_available_container p now language = none)
    ∧ (∀ l, language = some l → l ≠ "" →
        (∀ cid w, cid ∈ langIndex p l → alookup cid p.pool = some w →
            w.language = some l) →
        (∃ cid w, cid ∈ langIndex p l ∧ alookup cid p.pool = some w ∧
            eligibleB p.idle_timeout now w = true) →
        ∃ w, get_available_container p now language = some w ∧ w.language = some l) := by
  refine ⟨?_, ?_, ?_⟩
  · intro w h
    rw [← eligibleB_iff p.idle_timeout now w]
    simp only [get_available_container] at h
    by_cases hlt : langTruthy language = true
    · rw [if_pos hlt] at h
      cases halk : alookup (language.getD "") p.language_pools with
      | none =>
        rw [halk] at h
        exact (findEligibleAny_sound p now w h).1
      | some ids =>
        rw [halk] at h
        have h₁ : (match findEligibleInLang p now ids with
            | some w₂ => some w₂
            | none => findEligibleAny p now) = some w := h
        cases hfe : findEligibleInLang p now ids with
        | some w₁ =>
          rw [hfe] at h₁
          obtain rfl : w₁ = w := Option.some.inj h₁
          exact (findEligibleInLang_sound p now ids w₁ hfe).1
        | none =>
          rw [hfe] at h₁
          exact (findEligibleAny_sound p now w h₁).1
    · rw [if_neg hlt] at h
      exact (findEligibleAny_sound p now w h).1
  · intro hall
    simp only [get_available_container]
    by_cases hlt : langTruthy language = true
    · rw [if_pos hlt]
      cases halk : alookup (language.getD "") p.language_pools with
      | none =>
        exact findEligibleAny_none p now hall
      | some ids =>
        show (match findEligibleInLang p now ids with
            | some w => some w
            | none => findEligibleAny p now) = none
        rw [findEligibleInLang_none p now ids hall]
        exact findEligibleAny_none p now hall
    · rw [if_neg hlt]
      exact findEligibleAny_none p now hall
  · intro l hleq hlne hlang hex
    subst hleq
    obtain ⟨cid, w, hcmem, hcw, helig⟩ := hex
    have hlt : langTruthy (some l) = true := by simp [langTruthy, hlne]
    cases halk : alookup l p.language_pools with
    | none => simp [langIndex, halk] at hcmem
    | some ids =>
      have hids : langIndex p l = ids := by simp [langIndex, halk]
      rw [hids] at hcmem hlang
      have hsome : (findEligibleInLang p now ids).isSome := by
        apply List.findSome?_isSome_iff.mpr
        refine ⟨cid, hcmem, ?_⟩
        show (match alookup cid p.pool with
            | some w₂ => if eligibleB p.idle_timeout now w₂ = true then some w₂ else none
            | none => none).isSome = true
        rw [hcw]
        show (if eligibleB p.idle_timeout now w = true then some w else none).isSome = true
        rw [if_pos helig]
        rfl
      obtain ⟨w₁, hw₁⟩ := Option.isSome_iff_exists.mp hsome
      obtain ⟨helig₁, cid₁, hcm₁, hcw₁⟩ := findEligibleInLang_sound p now ids w₁ hw₁
      refine ⟨w₁, ?_, hlang cid₁ w₁ hcm₁ hcw₁⟩
      simp only [get_available_container, Option.getD_some]
      rw [if_pos hlt, halk]
      show (match findEligibleInLang p now ids with
          | some w₂ => some w₂
          | none => findEligibleAny p now) = some w₁
      rw [hw₁]

theorem get_available_eligibility_c2_witness :
    ∃ w, get_available_container
        ⟨10, 300,
          [("a", ⟨"a", 0, 0, ContainerStatus.running, false, some "python"⟩)],
          [("python", ["a"])]⟩ 5 (some "python") = some w
      ∧ w.language = some "python" :=
  (get_available_eligibility_c2
      ⟨10, 300,
        [("a", ⟨"a", 0, 0, ContainerStatus.running, false, some "python"⟩)],
        [("python", ["a"])]⟩ 5 (some "python")).2.2 "python" rfl (by decide)
    (by
      intro cid w hc hw
      simp [langIndex, alookup] at hc hw
      subst hc
      simp [alookup] at hw
      rw [← hw])
    ⟨"a", ⟨"a", 0, 0, ContainerStatus.running, false, some "python"⟩,
      by simp [langIndex, alookup], by simp [alookup], by decide⟩

/-! ### Claim C9: selection order among multiple eligible descriptors -/

/-- C9 as stated is false on the code: in a pool holding two eligible
descriptors, where the second one has the strictly greater `last_used`
(50 versus 0 at time 60 with timeout 100), `get_available_container`
returns the first descriptor in map-insertion order, not the
most-recently-used eligible one. -/
theorem get_available_order_c9_counterexample :
    get_available_container
        ⟨10, 100,
          [("a", ⟨"a", 0, 0, ContainerStatus.running, false, none⟩),
           ("b", ⟨"b", 0, 50, ContainerStatus.running, false, none⟩)], []⟩
        60 none
      = some ⟨"a", 0, 0, ContainerStatus.running, false, none⟩
    ∧ eligibleB 100 60 ⟨"b", 0, 50, ContainerStatus.running, false, none⟩ = true
    ∧ ((⟨"a", 0, 0, ContainerStatus.running, false, none⟩ : ContainerWrapper).last_used
        < (⟨"b", 0, 50, ContainerStatus.running, false, none⟩ :
            ContainerWrapper).last_used) := by
  refine ⟨rfl, by decide, by decide⟩

/-- C9 amended: `get_available_container` does not select by greatest
`last_used`.  The pool-wide scan returns the first eligible entry in the
pool's insertion-iteration order (every earlier entry is ineligible); the
language-index scan returns the wrapper of the first index id whose pool
entry is eligible, in index-iteration order; with no truthy language
argument the result is exactly the pool-wide scan, and with a truthy
language argument that has an index entry the index scan takes priority,
falling back to the pool-wide scan only when it yields nothing; finally,
some descriptor is returned whenever one is eligible. -/
theorem get_available_order_c9_amended (p : ContainerPool) (now : Int)
    (language : Option String) :
    (∀ w, findEligibleAny p now = some w →
        ∃ pre kv post, p.pool = pre ++ kv :: post ∧ kv.2 = w
          ∧ eligibleB p.idle_timeout now w = true
          ∧ ∀ kv₁ ∈ pre, eligibleB p.idle_timeout now kv₁.2 = false)
    ∧ (∀ ids w, findEligibleInLang p now ids = some w →
        ∃ pre cid post, ids = pre ++ cid :: post ∧ alookup cid p.pool = some w
          ∧ eligibleB p.idle_timeout now w = true
          ∧ ∀ cid₁ ∈ pre, ∀ w₁, alookup cid₁ p.pool = some w₁ →
              eligibleB p.idle_timeout now w₁ = false)
    ∧ get_available_container p now none = findEligibleAny p now
    ∧ (∀ l ids, language = some l → l ≠ "" →
        alookup l p.language_pools = some ids →
        get_available_container p now language
          = (findEligibleInLang p now ids).or (findEligibleAny p now))
    ∧ ((∃ kv ∈ p.pool, eligibleB p.idle_timeout now kv.2 = true) →
        ∃ w, get_available_container p now none = some w) := by
  refine ⟨?_, ?_, rfl, ?_, ?_⟩
  · intro w h
    unfold findEligibleAny at h
    rw [List.findSome?_eq_some_iff] at h
    obtain ⟨l₁, kv, l₂, hsplit, hkv, hpre⟩ := h
    have hkv₁ : (if eligibleB p.idle_timeout now kv.2 = true then some kv.2 else none)
        = some w := hkv
    by_cases he : eligibleB p.idle_timeout now kv.2 = true
    · rw [if_pos he] at hkv₁
      obtain rfl : kv.2 = w := Option.some.inj hkv₁
      refine ⟨l₁, kv, l₂, hsplit, rfl, he, ?_⟩
      intro kv₁ hmem
      have hnone₁ : (if eligibleB p.idle_timeout now kv₁.2 = true then some kv₁.2 else none)
          = none := hpre kv₁ hmem
      by_cases he₁ : eligibleB p.idle_timeout now kv₁.2 = true
      · rw [if_pos he₁] at hnone₁
        simp at hnone₁
      · exact Bool.eq_false_iff.mpr he₁
    · rw [if_neg he] at hkv₁
      simp at hkv₁
  · intro ids w h
    unfold findEligibleInLang at h
    rw [List.findSome?_eq_some_iff] at h
    obtain ⟨pre, cid, post, hsplit, hcid, hpre⟩ := h
    cases hcw : alookup cid p.pool with
    | none =>
      rw [hcw] at hcid
      simp at hcid
    | some w₁ =>
      rw [hcw] at hcid
      have hcid₁ : (if eligibleB p.idle_timeout now w₁ = true then some w₁ else none)
          = some w := hcid
      by_cases he : eligibleB p.idle_timeout now w₁ = true
      · rw [if_pos he] at hcid₁
        obtain rfl : w₁ = w := Option.some.inj hcid₁
        refine ⟨pre, cid, post, hsplit, hcw, he, ?_⟩
        intro cid₁ hmem w₂ hw₂
        have hnone₂ : (match alookup cid₁ p.pool with
            | some w₃ => if eligibleB p.idle_timeout now w₃ = true then some w₃ else none
            | none => none) = none := hpre cid₁ hmem
        rw [hw₂] at hnone₂
        have hnone₃ : (if eligibleB p.idle_timeout now w₂ = true then some w₂ else none)
            = none := hnone₂
        by_cases he₂ : eligibleB p.idle_timeout now w₂ = true
        · rw [if_pos he₂] at hnone₃
          simp at hnone₃
        · exact Bool.eq_false_iff.mpr he₂
      · rw [if_neg he] at hcid₁
        simp at hcid₁
  · intro l ids hleq hlne halk
    subst hleq
    have hT : langTruthy (some l) = true := by simp [langTruthy, hlne]
    simp only [get_available_container, Option.getD_some]
    rw [if_pos hT, halk]
    show (match findEligibleInLang p now ids with
        | some w₂ => some w₂
        | none => findEligibleAny p now)
      = (findEligibleInLang p now ids).or (findEligibleAny p now)
    cases hfe : findEligibleInLang p now ids <;> rfl
  · rintro ⟨kv, hmem, he⟩
    have hsome : (findEligibleAny p now).isSome := by
      apply List.findSome?_isSome_iff.mpr
      refine ⟨kv, hmem, ?_⟩
      show (if eligibleB p.idle_timeout now kv.2 = true then some kv.2 else none).isSome
        = true
      rw [if_pos he]
      rfl
    obtain ⟨w, hw⟩ := Option.isSome_iff_exists.mp hsome
    exact ⟨w, hw⟩

theorem get_available_order_c9_amended_witness :
    (∃ pre kv post,
      ([("a", (⟨"a", 0, 0, ContainerStatus.running, false, none⟩ : ContainerWrapper)),
        ("b", ⟨"b", 0, 50, ContainerStatus.running, false, none⟩)] :
          List (String × ContainerWrapper))
        = pre ++ kv :: post
      ∧ kv.2 = (⟨"a", 0, 0, ContainerStatus.running, false, none⟩ : ContainerWrapper)
      ∧ eligibleB 100 60 ⟨"a", 0, 0, ContainerStatus.running, false, none⟩ = true
      ∧ ∀ kv₁ ∈ pre, eligibleB 100 60 kv₁.2 = false)
    ∧ get_available_container
        ⟨10, 100,
          [("a", ⟨"a", 0, 0, ContainerStatus.running, false, none⟩),
           ("b", ⟨"b", 0, 50, ContainerStatus.running, false, some "python"⟩)],
          [("python", ["b"])]⟩ 60 (some "python")
      = (findEligibleInLang
          ⟨10, 100,
            [("a", ⟨"a", 0, 0, ContainerStatus.running, false, none⟩),
             ("b", ⟨"b", 0, 50, ContainerStatus.running, false, some "python"⟩)],
            [("python", ["b"])]⟩ 60 ["b"]).or
        (findEligibleAny
          ⟨10, 100,
            [("a", ⟨"a", 0, 0, ContainerStatus.running, false, none⟩),
             ("b", ⟨"b", 0, 50, ContainerStatus.running, false, some "python"⟩)],
            [("python", ["b"])]⟩ 60) :=
  ⟨(get_available_order_c9_amended
      ⟨10, 100,
        [("a", ⟨"a", 0, 0, ContainerStatus.running, false, none⟩),
         ("b", ⟨"b", 0, 50, ContainerStatus.running, false, none⟩)], []⟩ 60 none).1
      ⟨"a", 0, 0, ContainerStatus.running, false, none⟩ rfl,
   (get_available_order_c9_amended
      ⟨10, 100,
        [("a", ⟨"a", 0, 0, ContainerStatus.running, false, none⟩),
         ("b", ⟨"b", 0, 50, ContainerStatus.running, false, some "python"⟩)],
        [("python", ["b"])]⟩ 60 (some "python")).2.2.2.1 "python" ["b"] rfl
      (by decide) rfl⟩

/-! ### Claim C3: pool-exhaustion condition of create_and_start_container -/

theorem remove_container_pool_eq (p : ContainerPool) (cid : String) :
    ((remove_container p cid).2).pool = p.pool.filter (fun kv => kv.1 != cid) := by
  unfold remove_container
  cases h : alookup cid p.pool with
  | none =>
    show p.pool = p.pool.filter (fun kv => kv.1 != cid)
    symm
    apply List.filter_eq_self.mpr
    intro kv hkv
    have := (alookup_eq_none_iff cid p.pool).mp h kv hkv
    simpa using this
  | some w => rfl

theorem foldl_remove_pool (ids : List String) (p : ContainerPool) :
    (ids.foldl (fun acc cid => (remove_container acc cid).2) p).pool
      = p.pool.filter (fun kv => !ids.contains kv.1) := by
  induction ids generalizing p with
  | nil => simp
  | cons cid t ih =>
    rw [List.foldl_cons, ih, remove_container_pool_eq, List.filter_filter]
    apply List.filter_congr
    intro kv _
    by_cases hkv : kv.1 = cid <;> simp [hkv, Bool.and_comm]

theorem cleanup_idle_pool_le (p : ContainerPool) (now : Int) :
    ((cleanup_idle_containers p now).2).pool.length ≤ p.pool.length := by
  have h : ((cleanup_idle_containers p now).2).pool
      = p.pool.filter (fun kv => !(((p.pool.filter (fun kv =>
          !kv.2.in_use && decide (now - kv.2.last_used > p.idle_timeout))).map
          (fun kv => kv.1))).contains kv.1) := foldl_remove_pool _ p
  rw [h]
  exact List.length_filter_le _ _

/-- C3: `create_and_start_container` fails with `PoolExhausted` exactly
when the pool already holds `max_pool_size` containers and the triggered
`cleanup_idle_containers` pass frees zero slots (leaves the pool length
unchanged); when cleanup frees at least one slot, creation proceeds and
the new running container is registered in the pool under its id. -/
theorem create_pool_exhaustion_c3 (p : ContainerPool) (now : Int)
    (newId language : String) (hmax : p.pool.length ≤ p.max_pool_size) :
    (create_and_start_container p now newId language = .error .poolExhausted ↔
      (p.pool.length = p.max_pool_size ∧
        ((cleanup_idle_containers p now).2).pool.length = p.pool.length))
    ∧ (p.pool.length = p.max_pool_size →
        ((cleanup_idle_containers p now).2).pool.length < p.max_pool_size →
        ∃ p₁, create_and_start_container p now newId language = .ok (p₁, newId)
          ∧ ∃ w, alookup newId p₁.pool = some w ∧ w.language = some language
              ∧ w.status = ContainerStatus.running) := by
  constructor
  · constructor
    · intro herr
      by_cases hfull : p.pool.length ≥ p.max_pool_size
      · have h1 : p.pool.length = p.max_pool_size := le_antisymm hmax hfull
        have h3 : ((cleanup_idle_containers p now).2).pool.length ≤ p.pool.length :=
          cleanup_idle_pool_le p now
        have h2 : ((cleanup_idle_containers p now).2).pool.length ≥ p.max_pool_size := by
          by_contra hc
          simp only [create_and_start_container] at herr
          rw [if_pos hfull, if_neg hc] at herr
          simp at herr
        exact ⟨h1, by omega⟩
      · simp only [create_and_start_container] at herr
        rw [if_neg hfull, if_neg hfull] at herr
        simp at herr
    · rintro ⟨h1, h2⟩
      have hfull : p.pool.length ≥ p.max_pool_size := by omega
      simp only [create_and_start_container]
      rw [if_pos hfull,
        if_pos (by omega :
          ((cleanup_idle_containers p now).2).pool.length ≥ p.max_pool_size)]
  · intro h1 h2
    have hfull : p.pool.length ≥ p.max_pool_size := by omega
    simp only [create_and_start_container]
    rw [if_pos hfull,
      if_neg (by omega :
        ¬ ((cleanup_idle_containers p now).2).pool.length ≥ p.max_pool_size)]
    refine ⟨_, rfl, ?_⟩
    exact ⟨⟨newId, now, now, ContainerStatus.running, false, some language⟩,
      alookup_aupsert_self _ _ _, rfl, rfl⟩

theorem create_pool_exhaustion_c3_witness :
    ∃ p₁, create_and_start_container
        ⟨1, 100,
          [("old", ⟨"old", 0, 0, ContainerStatus.running, false, some "python"⟩)],
          [("python", ["old"])]⟩ 200 "new" "go" = .ok (p₁, "new")
      ∧ ∃ w, alookup "new" p₁.pool = some w ∧ w.language = some "go"
          ∧ w.status = ContainerStatus.running :=
  (create_pool_exhaustion_c3
      ⟨1, 100,
        [("old", ⟨"old", 0, 0, ContainerStatus.running, false, some "python"⟩)],
        [("python", ["old"])]⟩ 200 "new" "go" (by decide)).2 (by decide) (by decide)

/-! ### Claim C6: language index as partition of the pool -/

theorem aerase_keys {α : Type} (cid : String) (l : List (String × α)) :
    (aerase cid l).map (fun kv => kv.1)
      = (l.map (fun kv => kv.1)).filter (fun x => x != cid) := by
  induction l with
  | nil => rfl
  | cons kv t ih =>
    simp only [aerase, List.filter_cons] at ih ⊢
    by_cases h1 : kv.1 = cid
    · simp [h1, ih]
    · simp [h1, ih]

theorem aerase_filter_map (cid : String) (Q : String × ContainerWrapper → Bool)
    (l : List (String × ContainerWrapper)) :
    ((aerase cid l).filter Q).map (fun kv => kv.1)
      = ((l.filter Q).map (fun kv => kv.1)).filter (fun x => x != cid) := by
  rw [aerase, List.filter_filter]
  induction l with
  | nil => rfl
  | cons kv t ih =>
    by_cases h1 : kv.1 = cid
    · by_cases h2 : Q kv <;> simp [List.filter_cons, h1, h2, ih]
    · by_cases h2 : Q kv <;> simp [List.filter_cons, h1, h2, ih]

theorem filter_ne_self_of_not_mem (x : String) (s : List String) (h : x ∉ s) :
    s.filter (fun y => y != x) = s :=
  List.filter_eq_self.mpr (fun y hy => by
    simp
    exact fun he => h (he ▸ hy))

theorem poolInv_add (p : ContainerPool) (w : ContainerWrapper)
    (hinv : PoolInv p) (hfresh : alookup w.id p.pool = none) :
    PoolInv (add_container p w) := by
  obtain ⟨hnd, hidx⟩ := hinv
  have hpool : (add_container p w).pool = p.pool ++ [(w.id, w)] := by
    simp [add_container, aupsert_fresh _ _ _ hfresh]
  have hnotin : w.id ∉ p.pool.map (fun kv => kv.1) := by
    intro hmem
    obtain ⟨kv, hkv, he⟩ := List.mem_map.mp hmem
    exact ((alookup_eq_none_iff _ _).mp hfresh kv hkv) he
  constructor
  · rw [hpool, List.map_append]
    simp only [List.map_cons, List.map_nil]
    exact List.Nodup.append hnd (List.nodup_singleton _)
      (by simpa [List.disjoint_singleton] using hnotin)
  · intro l hl
    have hplr : poolLangIds (add_container p w) l
        = poolLangIds p l
            ++ (([(w.id, w)].filter (fun kv => kv.2.language == some l)).map
                  (fun kv => kv.1)) := by
      rw [poolLangIds, hpool, List.filter_append, List.map_append]
      rfl
    cases hwl : w.language with
    | none =>
      have hidxeq : (add_container p w).language_pools = p.language_pools := by
        simp [add_container, hwl, langTruthy]
      have hcount : langIndex (add_container p w) l = langIndex p l := by
        rw [langIndex, hidxeq, langIndex]
      rw [hcount, hidx l hl, hplr]
      simp [hwl]
    | some l₀ =>
      by_cases hl₀ : l₀ = ""
      · subst hl₀
        have hidxeq : (add_container p w).language_pools = p.language_pools := by
          simp [add_container, hwl, langTruthy]
        have hcount : langIndex (add_container p w) l = langIndex p l := by
          rw [langIndex, hidxeq, langIndex]
        have hfl : ((w.language == some l) : Bool) = false := by
          simp [hwl]
          exact fun he => hl he.symm
        rw [hcount, hidx l hl, hplr]
        simp [hfl]
      · have hT : langTruthy (some l₀) = true := by simp [langTruthy, hl₀]
        have hidxeq : (add_container p w).language_pools
            = aupsert l₀ (setAdd w.id ((alookup l₀ p.language_pools).getD []))
                p.language_pools := by
          simp [add_container, hwl, hT]
        by_cases hll : l = l₀
        · subst hll
          have hcount : langIndex (add_container p w) l
              = setAdd w.id (langIndex p l) := by
            rw [langIndex, hidxeq, alookup_aupsert_self]
            rfl
          have hnm : w.id ∉ poolLangIds p l := by
            intro hmem
            obtain ⟨kv, hkv, he⟩ := List.mem_map.mp hmem
            exact hnotin (List.mem_map.mpr ⟨kv, List.mem_of_mem_filter hkv, he⟩)
          have hsa : setAdd w.id (poolLangIds p l) = poolLangIds p l ++ [w.id] := by
            rw [setAdd, if_neg]
            simp [hnm]
          rw [hcount, hidx l hl, hsa, hplr]
          simp [hwl]
        · have hcount : langIndex (add_container p w) l = langIndex p l := by
            rw [langIndex, hidxeq,
              alookup_aupsert_ne _ _ _ _ (fun he => hll he), langIndex]
          have hfl : ((w.language == some l) : Bool) = false := by
            simp [hwl]
            exact fun he => hll he.symm
          rw [hcount, hidx l hl, hplr]
          simp [hfl]

theorem poolInv_remove (p : ContainerPool) (cid : String) (hinv : PoolInv p) :
    PoolInv (remove_container p cid).2 := by
  obtain ⟨hnd, hidx⟩ := hinv
  cases hlk : alookup cid p.pool with
  | none =>
    have hsame : (remove_container p cid).2 = p := by
      simp [remove_container, hlk]
    rw [hsame]
    exact ⟨hnd, hidx⟩
  | some w =>
    have hpool : ((remove_container p cid).2).pool = aerase cid p.pool := by
      simp [remove_container, hlk]
    have hnotin : ∀ l₁ : String, w.language ≠ some l₁ → cid ∉ poolLangIds p l₁ := by
      intro l₁ hne hmem
      obtain ⟨kv, hkvmem, hfst⟩ := List.mem_map.mp hmem
      have hkvp : kv ∈ p.pool := (List.mem_filter.mp hkvmem).1
      have hQ : (kv.2.language == some l₁) = true := (List.mem_filter.mp hkvmem).2
      have hlook : alookup kv.1 p.pool = some kv.2 :=
        alookup_of_mem_nodup _ _ _ hnd (by simpa using hkvp)
      rw [hfst, hlk] at hlook
      have hw : w = kv.2 := Option.some.inj hlook
      rw [← hw] at hQ
      exact hne (beq_iff_eq.mp hQ)
    have hremIds : ∀ l₁ : String, poolLangIds (remove_container p cid).2 l₁
        = (poolLangIds p l₁).filter (fun x => x != cid) := by
      intro l₁
      rw [poolLangIds, hpool, aerase_filter_map, poolLangIds]
    constructor
    · rw [hpool, aerase_keys]
      exact List.Nodup.filter _ hnd
    · intro l hl
      rw [hremIds l]
      cases hwl : w.language with
      | none =>
        have hidxeq : ((remove_container p cid).2).language_pools = p.language_pools := by
          simp [remove_container, hlk, hwl, langTruthy]
        have hcount : langIndex (remove_container p cid).2 l = langIndex p l := by
          rw [langIndex, hidxeq, langIndex]
        rw [hcount, hidx l hl,
          filter_ne_self_of_not_mem cid _ (hnotin l (by simp [hwl]))]
      | some l₀ =>
        by_cases hl₀ : l₀ = ""
        · subst hl₀
          have hidxeq : ((remove_container p cid).2).language_pools
              = p.language_pools := by
            simp [remove_container, hlk, hwl, langTruthy]
          have hcount : langIndex (remove_container p cid).2 l = langIndex p l := by
            rw [langIndex, hidxeq, langIndex]
          have hne : w.language ≠ some l := by
            rw [hwl]
            exact fun he => hl (Option.some.inj he).symm
          rw [hcount, hidx l hl, filter_ne_self_of_not_mem cid _ (hnotin l hne)]
        · have hT : langTruthy (some l₀) = true := by simp [langTruthy, hl₀]
          cases hpl : alookup l₀ p.language_pools with
          | none =>
            exfalso
            have hmem : cid ∈ poolLangIds p l₀ := by
              have hkvmem : (cid, w) ∈ p.pool := alookup_some_mem _ _ _ hlk
              apply List.mem_map.mpr
              refine ⟨(cid, w), List.mem_filter.mpr ⟨hkvmem, by simp [hwl]⟩, rfl⟩
            rw [← hidx l₀ hl₀] at hmem
            rw [langIndex, hpl] at hmem
            simp at hmem
          | some s =>
            have hidxeq : ((remove_container p cid).2).language_pools
                = aupsert l₀ (s.filter (fun x => x != cid)) p.language_pools := by
              simp [remove_container, hlk, hT, hwl, hpl]
            have hs : s = poolLangIds p l₀ := by
              have := hidx l₀ hl₀
              rw [langIndex, hpl] at this
              simpa using this
            by_cases hll : l = l₀
            · subst hll
              have hcount : langIndex (remove_container p cid).2 l
                  = s.filter (fun x => x != cid) := by
                rw [langIndex, hidxeq, alookup_aupsert_self]
                rfl
              rw [hcount, hs]
            · have hcount : langIndex (remove_container p cid).2 l = langIndex p l := by
                rw [langIndex, hidxeq,
                  alookup_aupsert_ne _ _ _ _ (fun he => hll he), langIndex]
              have hne : w.language ≠ some l := by
                rw [hwl]
                exact fun he => hll (Option.some.inj he).symm
              rw [hcount, hidx l hl, filter_ne_self_of_not_mem cid _ (hnotin l hne)]

theorem poolInv_applyOps (p : ContainerPool) (ops : List PoolOp) (hinv : PoolInv p)
    (hv : validOps p ops = true) : PoolInv (applyOps p ops) := by
  induction ops generalizing p with
  | nil => exact hinv
  | cons op t ih =>
    cases op with
    | add w =>
      have hv₁ : ((alookup w.id p.pool).isNone
          && validOps (applyOp p (PoolOp.add w)) t) = true := hv
      rw [Bool.and_eq_true] at hv₁
      rw [applyOps, List.foldl_cons]
      exact ih _ (poolInv_add p w hinv
        (by simpa [Option.isNone_iff_eq_none] using hv₁.1)) hv₁.2
    | remove cid =>
      have hv₁ : (true && validOps (applyOp p (PoolOp.remove cid)) t) = true := hv
      rw [Bool.true_and] at hv₁
      rw [applyOps, List.foldl_cons]
      exact ih _ (poolInv_remove p cid hinv) hv₁

/-- C6 as stated is false on the code at two concrete inputs: adding twice
under the same container id with different languages leaves a stale
`python` index entry (count 1, partition size 0), and with one python
container in the pool, `count` at the empty-string language falls back to
the whole-pool count 1 while the partition for that language is empty. -/
theorem pool_count_partition_c6_counterexample :
    (get_container_count
        (add_container (add_container (mkContainerPool 10 300)
            ⟨"c1", 0, 0, ContainerStatus.running, false, some "python"⟩)
          ⟨"c1", 0, 0, ContainerStatus.running, false, some "java"⟩)
        (some "python") = 1
      ∧ ((add_container (add_container (mkContainerPool 10 300)
            ⟨"c1", 0, 0, ContainerStatus.running, false, some "python"⟩)
          ⟨"c1", 0, 0, ContainerStatus.running, false, some "java"⟩).pool.filter
          (fun kv => kv.2.language == some "python")).length = 0)
    ∧ (get_container_count
        (add_container (mkContainerPool 10 300)
          ⟨"c1", 0, 0, ContainerStatus.running, false, some "python"⟩)
        (some "") = 1
      ∧ ((add_container (mkContainerPool 10 300)
          ⟨"c1", 0, 0, ContainerStatus.running, false, some "python"⟩).pool.filter
          (fun kv => kv.2.language == some "")).length = 0) := by
  refine ⟨⟨rfl, rfl⟩, rfl, rfl⟩

/-- C6 amended: for every sequence of add and remove operations starting
from an empty pool in which each `add` supplies a container id not
already present (as runtime-generated ids are), and for every nonempty
language `l`, `count(l)` equals the number of primary-map descriptors
whose language is `l` at every observation point, and the language index
entry is exactly the partition class of the primary map for `l`. -/
theorem pool_count_partition_c6_amended (max : Nat) (idle : Int) (ops : List PoolOp)
    (hv : validOps (mkContainerPool max idle) ops = true) (l : String) (hl : l ≠ "") :
    get_container_count (applyOps (mkContainerPool max idle) ops) (some l)
      = ((applyOps (mkContainerPool max idle) ops).pool.filter
          (fun kv => kv.2.language == some l)).length
    ∧ langIndex (applyOps (mkContainerPool max idle) ops) l
      = poolLangIds (applyOps (mkContainerPool max idle) ops) l := by
  have hinv : PoolInv (applyOps (mkContainerPool max idle) ops) :=
    poolInv_applyOps (mkContainerPool max idle) ops
      ⟨by simp [mkContainerPool], fun l₁ _ => rfl⟩ hv
  obtain ⟨hnd, hidx⟩ := hinv
  have h2 := hidx l hl
  have hT : langTruthy (some l) = true := by simp [langTruthy, hl]
  constructor
  · show (if langTruthy (some l) = true then
        ((alookup ((some l).getD "") (applyOps (mkContainerPool max idle)
            ops).language_pools).getD []).length
      else (applyOps (mkContainerPool max idle) ops).pool.length) = _
    rw [if_pos hT]
    show (langIndex (applyOps (mkContainerPool max idle) ops) l).length = _
    rw [h2, poolLangIds, List.length_map]
  · exact h2

theorem pool_count_partition_c6_amended_witness :
    get_container_count
        (applyOps (mkContainerPool 10 300)
          [PoolOp.add ⟨"a", 0, 0, ContainerStatus.running, false, some "python"⟩,
           PoolOp.add ⟨"b", 0, 0, ContainerStatus.running, false, some "python"⟩,
           PoolOp.remove "a"])
        (some "python")
      = ((applyOps (mkContainerPool 10 300)
          [PoolOp.add ⟨"a", 0, 0, ContainerStatus.running, false, some "python"⟩,
           PoolOp.add ⟨"b", 0, 0, ContainerStatus.running, false, some "python"⟩,
           PoolOp.remove "a"]).pool.filter
          (fun kv => kv.2.language == some "python")).length
    ∧ langIndex (applyOps (mkContainerPool 10 300)
          [PoolOp.add ⟨"a", 0, 0, ContainerStatus.running, false, some "python"⟩,
           PoolOp.add ⟨"b", 0, 0, ContainerStatus.running, false, some "python"⟩,
           PoolOp.remove "a"]) "python"
      = poolLangIds (applyOps (mkContainerPool 10 300)
          [PoolOp.add ⟨"a", 0, 0, ContainerStatus.running, false, some "python"⟩,
           PoolOp.add ⟨"b", 0, 0, ContainerStatus.running, false, some "python"⟩,
           PoolOp.remove "a"]) "python" :=
  pool_count_partition_c6_amended 10 300
    [PoolOp.add ⟨"a", 0, 0, ContainerStatus.running, false, some "python"⟩,
     PoolOp.add ⟨"b", 0, 0, ContainerStatus.running, false, some "python"⟩,
     PoolOp.remove "a"] (by decide) "python" (by decide)

end AIChallenge
